import Mathlib

/-!
Verification of the `parse_outdated` report parser (`src/lib.rs`) against its
specification.  The Rust code is shallowly embedded: Rust `&str` values are
modelled as `List Char` (a UTF-8 string is a sequence of chars, with byte
offsets recovered through `Char.utf8Size`), fallible operations return
`Except Err`, and operations that can panic in Rust (out-of-range or
non-boundary byte slicing, out-of-range `Vec` indexing, `Option::unwrap`)
return `Option`, with `none` standing for a panic/abort.
-/

namespace ParseOutdated

/-- `DepKind` from the source: closed enumeration of dependency kinds. -/
inductive DepKind where
  | normal
  | development
  | build
deriving DecidableEq, Repr

/-- `LatestVersion` from the source: a literal version string or `Removed`. -/
inductive LatestVersion where
  | v (s : List Char)
  | removed
deriving DecidableEq, Repr

/-- `OutdatedDep` from the source: one parsed table row. -/
structure OutdatedDep where
  name : List Char
  project_version : List Char
  latest_compatible_version : Option (List Char)
  latest_version : LatestVersion
  kind : DepKind
  platform : Option (List Char)
deriving DecidableEq, Repr

/-- `OutdatedResult` from the source: ordered workspace entries. -/
structure OutdatedResult where
  projects : List (List Char × List OutdatedDep)
deriving DecidableEq, Repr

/-- `OutdatedDepBuilder` from the source: the all-optional intermediate
record, mutated column by column and validated when a row is committed. -/
structure OutdatedDepBuilder where
  name : Option (List Char)
  project_version : Option (List Char)
  latest_compatible_version : Option (List Char)
  latest_version : Option LatestVersion
  kind : Option DepKind
  platform : Option (List Char)
deriving DecidableEq, Repr

/-- `ParseState` from the source. -/
inductive ParseState where
  | start
  | inWorkspaceBreak
  | inHeader
  | inRow
  | inHeaderBreak
deriving DecidableEq, Repr

/-- The distinct `anyhow!` error messages produced by `try_from`, with the
data each one carries. -/
inductive Err where
  | expectedLineBreak (line : List Char)
  | expectedHeaderRow (line : List Char)
  | missingColumnIndex (column line : List Char)
  | unknownDepKind (value : List Char)
  | missingValue (field : List Char)
deriving DecidableEq, Repr

/-! ### String primitives (Rust `&str` operations on `List Char`) -/

/-- Rust `str::split("\n")`: split into lines at newline characters;
an empty input yields one empty line, as in Rust. -/
def splitLines : List Char → List (List Char)
  | [] => [[]]
  | c :: cs =>
    if c = '\n' then [] :: splitLines cs
    else
      match splitLines cs with
      | l :: ls => (c :: l) :: ls
      | [] => [[c]]

/-- Rust `str::trim`: strip leading and trailing whitespace characters. -/
def trimChars (s : List Char) : List Char :=
  ((s.dropWhile Char.isWhitespace).reverse.dropWhile Char.isWhitespace).reverse

/-- Helper for `splitWS`: accumulates the current (reversed) token. -/
def splitWSAux : List Char → List Char → List (List Char)
  | acc, [] => if acc = [] then [] else [acc.reverse]
  | acc, c :: cs =>
    if c.isWhitespace then
      if acc = [] then splitWSAux [] cs else acc.reverse :: splitWSAux [] cs
    else splitWSAux (c :: acc) cs

/-- Rust `str::split_whitespace`: whitespace-separated tokens, no empties. -/
def splitWS (s : List Char) : List (List Char) :=
  splitWSAux [] s

/-- Drop exactly `n` bytes from the front of a string; `none` when `n`
overruns the string or falls inside a multi-byte character (the conditions
under which Rust byte slicing panics). -/
def dropBytes : List Char → Nat → Option (List Char)
  | s, 0 => some s
  | [], _ + 1 => none
  | c :: cs, n + 1 =>
    if c.utf8Size ≤ n + 1 then dropBytes cs (n + 1 - c.utf8Size) else none

/-- Take exactly `n` bytes from the front of a string; `none` on overrun or
char-boundary violation. -/
def takeBytes : List Char → Nat → Option (List Char)
  | _, 0 => some []
  | [], _ + 1 => none
  | c :: cs, n + 1 =>
    if c.utf8Size ≤ n + 1 then (takeBytes cs (n + 1 - c.utf8Size)).map (c :: ·)
    else none

/-- Rust `&line[a..b]`: `none` models the panic (start past end, out of
range, or not on a character boundary). -/
def byteSlice (s : List Char) (a b : Nat) : Option (List Char) :=
  if a ≤ b then (dropBytes s a).bind (fun t => takeBytes t (b - a)) else none

/-- Rust `line.match_indices(needle).nth(0)`: byte offset of the first
occurrence of `needle`. -/
def findSub (needle : List Char) : List Char → Option Nat
  | [] => if needle = [] then some 0 else none
  | c :: rest =>
    if needle.isPrefixOf (c :: rest) then some 0
    else (findSub needle rest).map (· + c.utf8Size)

/-! ### The parser -/

/-- The fixed header tokens `["Name", "Project", "Compat", "Latest", "Kind",
"Platform"]`. -/
def columns : List (List Char) :=
  ["Name".data, "Project".data, "Compat".data, "Latest".data, "Kind".data,
   "Platform".data]

/-- The exact 16-character section separator line. -/
def sepLine : List Char := "================".data

/-- The column-offset resolution loop of the `InHeader` arm: for each column
name in order, the byte index of its first occurrence in the header line
(`ok_or` error when absent). -/
def resolveIndices (line : List Char) : List (List Char) → Except Err (List Nat)
  | [] => .ok []
  | c :: cs =>
    match findSub c line with
    | none => .error (.missingColumnIndex c line)
    | some i => (resolveIndices line cs).map (i :: ·)

/-- The kind-token match of column 4. -/
def kindOf (value : List Char) : Option DepKind :=
  if value = "Normal".data then some .normal
  else if value = "Development".data then some .development
  else if value = "Build".data then some .build
  else none

/-- The cell text for column `i` starting at byte `start`: the last column
takes the rest of the line (`line[start..]`), every other column reads up to
`column_indices[i + 1]` (`none` models the panic when that index is out of
range or the slice is invalid).  The cell is trimmed. -/
def colValue (line : List Char) (indices : List Nat) (i start : Nat) :
    Option (List Char) :=
  if i = 5 then (dropBytes line start).map trimChars
  else
    match indices[i + 1]? with
    | none => none
    | some next => (byteSlice line start next).map trimChars

/-- The `match i` block writing one cell into the builder; column 4 raises
an immediate `UnknownDepKind` error through `?`. -/
def updateCol (b : OutdatedDepBuilder) (line : List Char) (i : Nat)
    (value : List Char) : Except Err OutdatedDepBuilder :=
  match i with
  | 0 => .ok { b with name := some value }
  | 1 => .ok { b with project_version := some value }
  | 2 =>
    let lc : Option (List Char) := if value = "---".data then none else some value
    .ok { b with latest_compatible_version := lc }
  | 3 =>
    let lv : LatestVersion := if value = "Removed".data then .removed else .v value
    .ok { b with latest_version := some lv }
  | 4 =>
    match kindOf value with
    | some k => .ok { b with kind := some k }
    | none => .error (.unknownDepKind value)
  | 5 =>
    let pf : Option (List Char) := if value = "---".data then none else some line
    .ok { b with platform := pf }
  | _ => .ok b

/-- The `for (i, start) in column_indices.iter().enumerate()` loop. -/
def processCols (line : List Char) (indices : List Nat) :
    OutdatedDepBuilder → Nat → List Nat → Option (Except Err OutdatedDepBuilder)
  | b, _, [] => some (.ok b)
  | b, i, start :: rest =>
    match colValue line indices i start with
    | none => none
    | some value =>
      match updateCol b line i value with
      | .error e => some (.error e)
      | .ok b' => processCols line indices b' (i + 1) rest

/-- The row-commit `ok_or` chain building an `OutdatedDep` from the builder,
in the evaluation order of the source (name, kind, latest version, project
version). -/
def buildDep (b : OutdatedDepBuilder) : Except Err OutdatedDep :=
  match b.name with
  | none => .error (.missingValue "name".data)
  | some n =>
    match b.kind with
    | none => .error (.missingValue "kind".data)
    | some k =>
      match b.latest_version with
      | none => .error (.missingValue "latest version".data)
      | some lv =>
        match b.project_version with
        | none => .error (.missingValue "project version".data)
        | some pv =>
          .ok ⟨n, pv, b.latest_compatible_version, lv, k, b.platform⟩

/-- Processing of one non-blank line in the `InRow` state: run the column
loop over the builder, then commit the row. -/
def processRow (indices : List Nat) (b : OutdatedDepBuilder)
    (line : List Char) : Option (Except Err (OutdatedDepBuilder × OutdatedDep)) :=
  match processCols line indices b 0 indices with
  | none => none
  | some (.error e) => some (.error e)
  | some (.ok b') =>
    match buildDep b' with
    | .error e => some (.error e)
    | .ok d => some (.ok (b', d))

deriving instance DecidableEq for Except

/-- The mutable locals of `try_from`, threaded through the loop.  The `st`
field is the `state : Result<ParseState>` variable: a stored `.error` is
only acted upon at the start of the next iteration (the `state?` in the
source), which is why it survives inside an `.ok` step result. -/
structure LoopSt where
  curDeps : List OutdatedDep
  workspaceDeps : List (List Char × List OutdatedDep)
  st : Except Err ParseState
  curDep : OutdatedDepBuilder
  workspaceName : Option (List Char)
  columnIndices : List Nat
deriving DecidableEq, Repr

/-- One iteration of the `for line in lines` loop.  `none` is a panic,
`some (.error e)` an immediate `?` return from `try_from`, and
`some (.ok s)` continuation with updated locals (possibly carrying a
deferred error in `s.st`). -/
def stepLine (s : LoopSt) (line : List Char) : Option (Except Err LoopSt) :=
  match s.st with
  | .error e => some (.error e)
  | .ok ps =>
    match ps with
    | .start =>
      let wd :=
        match s.workspaceName with
        | some n => s.workspaceDeps ++ [(n, s.curDeps)]
        | none => s.workspaceDeps
      some (.ok { s with workspaceDeps := wd, columnIndices := [],
                         workspaceName := some line,
                         st := .ok .inWorkspaceBreak })
    | .inWorkspaceBreak =>
      if line = sepLine then some (.ok { s with st := .ok .inHeader })
      else some (.ok { s with st := .error (.expectedLineBreak line) })
    | .inHeader =>
      if splitWS line = columns then
        match resolveIndices line columns with
        | .error e => some (.error e)
        | .ok idx =>
          some (.ok { s with columnIndices := s.columnIndices ++ idx,
                             st := .ok .inHeaderBreak })
      else some (.ok { s with st := .error (.expectedHeaderRow line) })
    | .inHeaderBreak => some (.ok { s with st := .ok .inRow })
    | .inRow =>
      if line = [] then some (.ok { s with st := .ok .start })
      else
        match processRow s.columnIndices s.curDep line with
        | none => none
        | some (.error e) => some (.error e)
        | some (.ok (b, d)) =>
          some (.ok { s with curDep := b, curDeps := s.curDeps ++ [d],
                             st := .ok .inRow })

/-- The whole `for` loop. -/
def runLines : LoopSt → List (List Char) → Option (Except Err LoopSt)
  | s, [] => some (.ok s)
  | s, l :: ls =>
    match stepLine s l with
    | none => none
    | some (.error e) => some (.error e)
    | some (.ok s') => runLines s' ls

/-- The initial values of the loop locals. -/
def initSt : LoopSt :=
  ⟨[], [], .ok .start, ⟨none, none, none, none, none, none⟩, none, []⟩

/-- `OutdatedResult::try_from`: split into trimmed lines, run the loop, then
commit the pending workspace.  The final `workspace_name.clone().unwrap()`
is a potential panic (`none`); note that the loop's `state` is *not*
inspected after the loop, so a deferred error produced by the final line is
discarded. -/
def tryFrom (output : String) : Option (Except Err OutdatedResult) :=
  let lines := (splitLines output.data).map trimChars
  match runLines initSt lines with
  | none => none
  | some (.error e) => some (.error e)
  | some (.ok s) =>
    match s.workspaceName with
    | none => none
    | some n => some (.ok ⟨s.workspaceDeps ++ [(n, s.curDeps)]⟩)

/-! ### Concrete inputs used by the concrete theorems and witnesses -/

/-- The header line of the specification's concrete scenario. -/
def hdrLine : String := "Name   Project  Compat  Latest   Kind    Platform"

/-- The dashed underline of the specification's concrete scenario. -/
def dashLine : String := "----   -------  ------  ------   ----    --------"

/-- Row `foo` of the specification's concrete scenario. -/
def fooRow : String := "foo    1.0.0    ---     2.0.0    Normal  ---"

/-- Row `bar` of the specification's concrete scenario. -/
def barRow : String := "bar    0.1.0    0.2.0   Removed  Build   ---"

/-- The specification's concrete scenario input. -/
def sampleInput : String :=
  "demo\n================\n" ++ hdrLine ++ "\n" ++ dashLine ++ "\n" ++
    fooRow ++ "\n" ++ barRow

/-- The record the scenario expects for `foo`. -/
def fooDep : OutdatedDep :=
  ⟨"foo".data, "1.0.0".data, none, .v "2.0.0".data, .normal, none⟩

/-- The record the scenario expects for `bar`. -/
def barDep : OutdatedDep :=
  ⟨"bar".data, "0.1.0".data, some "0.2.0".data, .removed, .build, none⟩

/-- Two well-formed sections `alpha` (row `foo`) and `beta` (row `bar`)
separated by exactly one blank line. -/
def twoSecInput : String :=
  "alpha\n================\n" ++ hdrLine ++ "\n----\n" ++ fooRow ++
    "\n\nbeta\n================\n" ++ hdrLine ++ "\n----\n" ++ barRow

/-- The same two sections separated by two blank lines. -/
def twoSecDoubleBlankInput : String :=
  "alpha\n================\n" ++ hdrLine ++ "\n----\n" ++ fooRow ++
    "\n\n\nbeta\n================\n" ++ hdrLine ++ "\n----\n" ++ barRow

/-- A section whose single data row is shorter than the resolved column
offsets. -/
def shortRowInput : String :=
  "w\n================\nName Project Compat Latest Kind Platform\n----\nx"

/-- A data row whose platform cell is not the placeholder. -/
def pfRow : String := "qux    1.0.0    ---     2.0.0    Normal  cfg(unix)"

/-- A section whose single data row has the unrecognized kind token
`Weird`. -/
def badKindInput : String :=
  "demo\n================\n" ++ hdrLine ++ "\n" ++ dashLine ++
    "\nfoo    1.0.0    ---     2.0.0    Weird   ---"

/-- The loop state after consuming a name line `demo`, the separator, the
scenario header and its underline. -/
def afterHeaderSt : LoopSt :=
  ⟨[], [], .ok .inRow, ⟨none, none, none, none, none, none⟩, some "demo".data,
   [0, 7, 16, 24, 33, 41]⟩

/-- The loop state after the four prefix lines of `shortRowInput`. -/
def afterShortHeaderSt : LoopSt :=
  ⟨[], [], .ok .inRow, ⟨none, none, none, none, none, none⟩, some "w".data,
   [0, 5, 13, 20, 27, 32]⟩

/-- The six trimmed cells and the committed record of one data row, written
as a straight-line computation.  `processRow_closed` proves the loop equal
to it whenever the index vector has the six entries it always has after a
header was parsed. -/
def rowOutcome (i0 i1 i2 i3 i4 i5 : Nat) (line : List Char) :
    Option (Except Err (OutdatedDepBuilder × OutdatedDep)) :=
  match (byteSlice line i0 i1).map trimChars with
  | none => none
  | some v0 =>
    match (byteSlice line i1 i2).map trimChars with
    | none => none
    | some v1 =>
      match (byteSlice line i2 i3).map trimChars with
      | none => none
      | some v2 =>
        match (byteSlice line i3 i4).map trimChars with
        | none => none
        | some v3 =>
          match (byteSlice line i4 i5).map trimChars with
          | none => none
          | some v4 =>
            match kindOf v4 with
            | none => some (.error (.unknownDepKind v4))
            | some k =>
              match (dropBytes line i5).map trimChars with
              | none => none
              | some v5 =>
                let lc : Option (List Char) :=
                  if v2 = "---".data then none else some v2
                let lv : LatestVersion :=
                  if v3 = "Removed".data then .removed else .v v3
                let pf : Option (List Char) :=
                  if v5 = "---".data then none else some line
                some (.ok (⟨some v0, some v1, lc, some lv, some k, pf⟩,
                           ⟨v0, v1, lc, lv, k, pf⟩))


/-! ### Well-formed sections and expected-result bookkeeping -/

/-- One report section: a workspace name line, the header line, the dashed
underline and the data rows (the separator line is the fixed `sepLine`). -/
structure WSection where
  name : List Char
  header : List Char
  underline : List Char
  rows : List (List Char)
deriving DecidableEq, Repr

/-- The lines a section contributes to the report. -/
def sectionLines (S : WSection) : List (List Char) :=
  S.name :: sepLine :: S.header :: S.underline :: S.rows

/-- The lines of a whole report: sections separated by exactly one blank
line, no trailing blank after the last section. -/
def sectionsLines : List WSection → List (List Char)
  | [] => []
  | [S] => sectionLines S
  | S :: Ss => sectionLines S ++ [] :: sectionsLines Ss

/-- Join lines with newline characters (inverse of `splitLines` for
newline-free lines). -/
def joinNL : List (List Char) → List Char
  | [] => []
  | [l] => l
  | l :: ls => l ++ '\n' :: joinNL ls

/-- A line that survives the parser's per-line trimming unchanged and does
not interfere with line splitting. -/
def lineOk (l : List Char) : Prop :=
  trimChars l = l ∧ '\n' ∉ l

/-- The record a row yields under given column offsets (builder-independent
projection of `processRow`), `none` when the row panics or errors. -/
def extractRec (idx : List Nat) (r : List Char) : Option OutdatedDep :=
  match processRow idx ⟨none, none, none, none, none, none⟩ r with
  | some (.ok (_, d)) => some d
  | _ => none

/-- The records of a list of rows, `none` as soon as one row fails. -/
def extractRows (idx : List Nat) : List (List Char) → Option (List OutdatedDep)
  | [] => some []
  | r :: rs =>
    match extractRec idx r with
    | none => none
    | some d => (extractRows idx rs).map (d :: ·)

/-- A well-formed section with resolved column offsets `[i0, …, i5]` whose
rows extract to `recs`: the name is a non-blank trim-stable line, the header
carries exactly the six column tokens and resolves to the given offsets, the
underline is a non-blank line, and every row is non-blank and extracts
successfully. -/
def wfSection (S : WSection) (i0 i1 i2 i3 i4 i5 : Nat)
    (recs : List OutdatedDep) : Prop :=
  lineOk S.name ∧ S.name ≠ [] ∧
  lineOk S.header ∧ splitWS S.header = columns ∧
  resolveIndices S.header columns = .ok [i0, i1, i2, i3, i4, i5] ∧
  lineOk S.underline ∧ S.underline ≠ [] ∧
  (∀ r ∈ S.rows, lineOk r ∧ r ≠ []) ∧
  extractRows [i0, i1, i2, i3, i4, i5] S.rows = some recs

/-- A section that is well-formed for some column offsets. -/
def SecOk (S : WSection) (recs : List OutdatedDep) : Prop :=
  ∃ i0 i1 i2 i3 i4 i5, wfSection S i0 i1 i2 i3 i4 i5 recs

/-- The `Start`-state commit: push the pending workspace, if any. -/
def commitW (wn : Option (List Char)) (cd : List OutdatedDep)
    (wd : List (List Char × List OutdatedDep)) :
    List (List Char × List OutdatedDep) :=
  match wn with
  | some n => wd ++ [(n, cd)]
  | none => wd

/-- The entry the `Start`-state commit appends, as a stand-alone list. -/
def commitList (wn : Option (List Char)) (cd : List OutdatedDep) :
    List (List Char × List OutdatedDep) :=
  match wn with
  | some n => [(n, cd)]
  | none => []

/-- The pending workspace name after folding a list of
(name, section-records) pairs. -/
def fsW (wn : Option (List Char)) :
    List (List Char × List OutdatedDep) → Option (List Char)
  | [] => wn
  | (n, _) :: rest => fsW (some n) rest

/-- The pending (never reset!) row accumulator after folding. -/
def fsD (cd : List OutdatedDep) :
    List (List Char × List OutdatedDep) → List OutdatedDep
  | [] => cd
  | (_, rs) :: rest => fsD (cd ++ rs) rest

/-- The committed workspace entries after folding. -/
def fsAcc (wn : Option (List Char)) (cd : List OutdatedDep)
    (wd : List (List Char × List OutdatedDep)) :
    List (List Char × List OutdatedDep) → List (List Char × List OutdatedDep)
  | [] => wd
  | (n, rs) :: rest => fsAcc (some n) (cd ++ rs) (commitW wn cd wd) rest

/-- The entries `try_from` actually produces for the given
(name, section-records) pairs, starting from the accumulated rows `cd`: each
entry carries the concatenation of all row lists up to and including its
own section, reflecting the missing `cur_deps` reset. -/
def accumEntries (cd : List OutdatedDep) :
    List (List Char × List OutdatedDep) → List (List Char × List OutdatedDep)
  | [] => []
  | (n, rs) :: rest => (n, cd ++ rs) :: accumEntries (cd ++ rs) rest

/-- Concrete section `alpha` with row `foo`. -/
def secAlpha : WSection := ⟨"alpha".data, hdrLine.data, dashLine.data, [fooRow.data]⟩

/-- Concrete section `beta` with row `bar`. -/
def secBeta : WSection := ⟨"beta".data, hdrLine.data, dashLine.data, [barRow.data]⟩

/-- The lines of two sections separated by two blank lines. -/
def doubleBlankLines (A B : WSection) : List (List Char) :=
  sectionLines A ++ [] :: [] :: sectionLines B

/-! ### Basic lemmas -/

theorem colValue_c0 (line : List Char) (i0 i1 i2 i3 i4 i5 j : Nat) :
    colValue line [i0, i1, i2, i3, i4, i5] 0 j =
      (byteSlice line j i1).map trimChars := rfl

theorem colValue_c1 (line : List Char) (i0 i1 i2 i3 i4 i5 j : Nat) :
    colValue line [i0, i1, i2, i3, i4, i5] 1 j =
      (byteSlice line j i2).map trimChars := rfl

theorem colValue_c2 (line : List Char) (i0 i1 i2 i3 i4 i5 j : Nat) :
    colValue line [i0, i1, i2, i3, i4, i5] 2 j =
      (byteSlice line j i3).map trimChars := rfl

theorem colValue_c3 (line : List Char) (i0 i1 i2 i3 i4 i5 j : Nat) :
    colValue line [i0, i1, i2, i3, i4, i5] 3 j =
      (byteSlice line j i4).map trimChars := rfl

theorem colValue_c4 (line : List Char) (i0 i1 i2 i3 i4 i5 j : Nat) :
    colValue line [i0, i1, i2, i3, i4, i5] 4 j =
      (byteSlice line j i5).map trimChars := rfl

theorem colValue_c5 (line : List Char) (i0 i1 i2 i3 i4 i5 j : Nat) :
    colValue line [i0, i1, i2, i3, i4, i5] 5 j =
      (dropBytes line j).map trimChars := rfl

/-- With a six-entry index vector, the column loop plus row commit equals
the straight-line `rowOutcome`; in particular the result does not depend on
the incoming builder, since every builder field is overwritten. -/
theorem processRow_closed (i0 i1 i2 i3 i4 i5 : Nat) (b : OutdatedDepBuilder)
    (line : List Char) :
    processRow [i0, i1, i2, i3, i4, i5] b line = rowOutcome i0 i1 i2 i3 i4 i5 line := by
  unfold processRow rowOutcome
  simp only [processCols, colValue_c0, colValue_c1, colValue_c2, colValue_c3,
    colValue_c4, colValue_c5, updateCol, buildDep, Nat.reduceAdd]
  cases h0 : (byteSlice line i0 i1).map trimChars with
  | none => rfl
  | some v0 =>
    cases h1 : (byteSlice line i1 i2).map trimChars with
    | none => rfl
    | some v1 =>
      cases h2 : (byteSlice line i2 i3).map trimChars with
      | none => rfl
      | some v2 =>
        cases h3 : (byteSlice line i3 i4).map trimChars with
        | none => rfl
        | some v3 =>
          cases h4 : (byteSlice line i4 i5).map trimChars with
          | none => rfl
          | some v4 =>
            dsimp only
            cases hk : kindOf v4 with
            | none => rfl
            | some k =>
              cases h5 : (dropBytes line i5).map trimChars with
              | none => rfl
              | some v5 => rfl

/-! ### Loop composition lemmas -/

theorem runLines_append (s : LoopSt) (xs ys : List (List Char)) :
    runLines s (xs ++ ys) =
      match runLines s xs with
      | none => none
      | some (.error e) => some (.error e)
      | some (.ok s') => runLines s' ys := by
  induction xs generalizing s with
  | nil => rfl
  | cons l ls ih =>
    show runLines s (l :: (ls ++ ys)) = _
    simp only [runLines]
    cases stepLine s l with
    | none => rfl
    | some r =>
      cases r with
      | error e => rfl
      | ok s' => exact ih s'

theorem tryFrom_eq_runLines (input : String) (ls : List (List Char))
    (hsplit : (splitLines input.data).map trimChars = ls) :
    tryFrom input =
      match runLines initSt ls with
      | none => none
      | some (.error e) => some (.error e)
      | some (.ok s) =>
        match s.workspaceName with
        | none => none
        | some n => some (.ok ⟨s.workspaceDeps ++ [(n, s.curDeps)]⟩) := by
  unfold tryFrom
  rw [hsplit]

/-- Inversion of a successful row extraction: the committed record is the
straightforward function of the six trimmed cells. -/
theorem rowOutcome_ok_inv (i0 i1 i2 i3 i4 i5 : Nat) (line : List Char)
    (b' : OutdatedDepBuilder) (d : OutdatedDep)
    (h : rowOutcome i0 i1 i2 i3 i4 i5 line = some (.ok (b', d))) :
    ∃ v0 v1 v2 v3 v4 v5 k,
      (byteSlice line i0 i1).map trimChars = some v0 ∧
      (byteSlice line i1 i2).map trimChars = some v1 ∧
      (byteSlice line i2 i3).map trimChars = some v2 ∧
      (byteSlice line i3 i4).map trimChars = some v3 ∧
      (byteSlice line i4 i5).map trimChars = some v4 ∧
      (dropBytes line i5).map trimChars = some v5 ∧
      kindOf v4 = some k ∧
      d = ⟨v0, v1, if v2 = "---".data then none else some v2,
           if v3 = "Removed".data then .removed else .v v3, k,
           if v5 = "---".data then none else some line⟩ := by
  unfold rowOutcome at h
  cases e0 : (byteSlice line i0 i1).map trimChars with
  | none => simp [e0] at h
  | some v0 =>
    simp only [e0] at h
    cases e1 : (byteSlice line i1 i2).map trimChars with
    | none => simp [e1] at h
    | some v1 =>
      simp only [e1] at h
      cases e2 : (byteSlice line i2 i3).map trimChars with
      | none => simp [e2] at h
      | some v2 =>
        simp only [e2] at h
        cases e3 : (byteSlice line i3 i4).map trimChars with
        | none => simp [e3] at h
        | some v3 =>
          simp only [e3] at h
          cases e4 : (byteSlice line i4 i5).map trimChars with
          | none => simp [e4] at h
          | some v4 =>
            simp only [e4] at h
            cases ek : kindOf v4 with
            | none => simp [ek] at h
            | some k =>
              simp only [ek] at h
              cases e5 : (dropBytes line i5).map trimChars with
              | none => simp [e5] at h
              | some v5 =>
                simp only [e5, Option.some.injEq, Except.ok.injEq,
                  Prod.mk.injEq] at h
                exact ⟨v0, v1, v2, v3, v4, v5, k, rfl, rfl, rfl, rfl, rfl, rfl,
                  ek, h.2.symm⟩

/-! ### Step lemmas for the state machine -/

theorem stepLine_err (cd : List OutdatedDep)
    (wd : List (List Char × List OutdatedDep)) (e : Err)
    (b : OutdatedDepBuilder) (wn : Option (List Char)) (ci : List Nat)
    (line : List Char) :
    stepLine ⟨cd, wd, .error e, b, wn, ci⟩ line = some (.error e) := rfl

theorem stepLine_start (cd : List OutdatedDep)
    (wd : List (List Char × List OutdatedDep)) (b : OutdatedDepBuilder)
    (wn : Option (List Char)) (ci : List Nat) (line : List Char) :
    stepLine ⟨cd, wd, .ok .start, b, wn, ci⟩ line =
      some (.ok ⟨cd, commitW wn cd wd, .ok .inWorkspaceBreak, b, some line, []⟩) := by
  cases wn <;> rfl

theorem stepLine_sep (cd : List OutdatedDep)
    (wd : List (List Char × List OutdatedDep)) (b : OutdatedDepBuilder)
    (wn : Option (List Char)) (ci : List Nat) :
    stepLine ⟨cd, wd, .ok .inWorkspaceBreak, b, wn, ci⟩ sepLine =
      some (.ok ⟨cd, wd, .ok .inHeader, b, wn, ci⟩) := by
  simp [stepLine, sepLine]

theorem stepLine_notsep (cd : List OutdatedDep)
    (wd : List (List Char × List OutdatedDep)) (b : OutdatedDepBuilder)
    (wn : Option (List Char)) (ci : List Nat) (line : List Char)
    (h : line ≠ sepLine) :
    stepLine ⟨cd, wd, .ok .inWorkspaceBreak, b, wn, ci⟩ line =
      some (.ok ⟨cd, wd, .error (.expectedLineBreak line), b, wn, ci⟩) := by
  simp [stepLine, h]

theorem stepLine_header (cd : List OutdatedDep)
    (wd : List (List Char × List OutdatedDep)) (b : OutdatedDepBuilder)
    (wn : Option (List Char)) (line : List Char) (idx : List Nat)
    (hsp : splitWS line = columns)
    (hres : resolveIndices line columns = .ok idx) :
    stepLine ⟨cd, wd, .ok .inHeader, b, wn, []⟩ line =
      some (.ok ⟨cd, wd, .ok .inHeaderBreak, b, wn, idx⟩) := by
  simp [stepLine, hsp, hres]

theorem stepLine_headerBreak (cd : List OutdatedDep)
    (wd : List (List Char × List OutdatedDep)) (b : OutdatedDepBuilder)
    (wn : Option (List Char)) (ci : List Nat) (line : List Char) :
    stepLine ⟨cd, wd, .ok .inHeaderBreak, b, wn, ci⟩ line =
      some (.ok ⟨cd, wd, .ok .inRow, b, wn, ci⟩) := rfl

theorem stepLine_blank (cd : List OutdatedDep)
    (wd : List (List Char × List OutdatedDep)) (b : OutdatedDepBuilder)
    (wn : Option (List Char)) (ci : List Nat) :
    stepLine ⟨cd, wd, .ok .inRow, b, wn, ci⟩ [] =
      some (.ok ⟨cd, wd, .ok .start, b, wn, ci⟩) := rfl

theorem runLines_cons_ok (s s' : LoopSt) (l : List Char)
    (ls : List (List Char)) (h : stepLine s l = some (.ok s')) :
    runLines s (l :: ls) = runLines s' ls := by
  simp only [runLines, h]

theorem runLines_cons_err (s : LoopSt) (e : Err) (l : List Char)
    (ls : List (List Char)) (h : stepLine s l = some (.error e)) :
    runLines s (l :: ls) = some (.error e) := by
  simp only [runLines, h]

theorem runLines_append_ok (s s' : LoopSt) (xs ys : List (List Char))
    (h : runLines s xs = some (.ok s')) :
    runLines s (xs ++ ys) = runLines s' ys := by
  rw [runLines_append, h]

/-- Processing a block of non-blank rows from the `InRow` state with a
six-entry index vector appends exactly the extracted records and stays in
`InRow`. -/
theorem runLines_rows (i0 i1 i2 i3 i4 i5 : Nat) :
    ∀ (rows : List (List Char)) (recs : List OutdatedDep)
      (cd : List OutdatedDep) (wd : List (List Char × List OutdatedDep))
      (b : OutdatedDepBuilder) (wn : Option (List Char)),
      (∀ r ∈ rows, r ≠ []) →
      extractRows [i0, i1, i2, i3, i4, i5] rows = some recs →
      ∃ b', runLines ⟨cd, wd, .ok .inRow, b, wn, [i0, i1, i2, i3, i4, i5]⟩ rows =
        some (.ok ⟨cd ++ recs, wd, .ok .inRow, b', wn, [i0, i1, i2, i3, i4, i5]⟩) := by
  intro rows
  induction rows with
  | nil =>
    intro recs cd wd b wn _ hex
    refine ⟨b, ?_⟩
    obtain rfl : ([] : List OutdatedDep) = recs := by
      simpa [extractRows] using hex
    simp [runLines]
  | cons r rs ih =>
    intro recs cd wd b wn hnb hex
    simp only [extractRows] at hex
    cases erec : extractRec [i0, i1, i2, i3, i4, i5] r with
    | none => rw [erec] at hex; exact absurd hex (by simp)
    | some d =>
      rw [erec] at hex
      cases eres : extractRows [i0, i1, i2, i3, i4, i5] rs with
      | none => rw [eres] at hex; exact absurd hex (by simp)
      | some rs' =>
        rw [eres] at hex
        obtain rfl : d :: rs' = recs := by simpa using hex
        have hpr : ∃ b1,
            processRow [i0, i1, i2, i3, i4, i5]
              ⟨none, none, none, none, none, none⟩ r = some (.ok (b1, d)) := by
          unfold extractRec at erec
          cases ep : processRow [i0, i1, i2, i3, i4, i5]
              ⟨none, none, none, none, none, none⟩ r with
          | none => rw [ep] at erec; exact absurd erec (by simp)
          | some x =>
            cases x with
            | error e => rw [ep] at erec; exact absurd erec (by simp)
            | ok p =>
              rw [ep] at erec
              simp only [Option.some.injEq] at erec
              subst erec
              exact ⟨p.1, by simp [ep]⟩
        obtain ⟨b1, hpr⟩ := hpr
        have hstep : stepLine ⟨cd, wd, .ok .inRow, b, wn,
            [i0, i1, i2, i3, i4, i5]⟩ r =
            some (.ok ⟨cd ++ [d], wd, .ok .inRow, b1, wn,
              [i0, i1, i2, i3, i4, i5]⟩) := by
          have hb : processRow [i0, i1, i2, i3, i4, i5] b r =
              some (.ok (b1, d)) := by
            rw [processRow_closed, ← processRow_closed i0 i1 i2 i3 i4 i5
              ⟨none, none, none, none, none, none⟩]
            exact hpr
          simp only [stepLine, if_neg (hnb r (List.mem_cons_self r rs)), hb]
        obtain ⟨b', hrun⟩ := ih rs' (cd ++ [d]) wd b1 wn
          (fun x hx => hnb x (List.mem_cons_of_mem r hx)) eres
        refine ⟨b', ?_⟩
        rw [runLines_cons_ok _ _ _ _ hstep, hrun]
        simp

/-- Processing one well-formed section from the `Start` state: the previous
workspace (if any) is committed, the section's name becomes the pending
name, its resolved offsets replace the index vector, and its records are
appended to the (uncleared) row accumulator. -/
theorem runSection (S : WSection) (i0 i1 i2 i3 i4 i5 : Nat)
    (recs : List OutdatedDep) (h : wfSection S i0 i1 i2 i3 i4 i5 recs)
    (cd : List OutdatedDep) (wd : List (List Char × List OutdatedDep))
    (b : OutdatedDepBuilder) (wn : Option (List Char)) (ci : List Nat) :
    ∃ b', runLines ⟨cd, wd, .ok .start, b, wn, ci⟩ (sectionLines S) =
      some (.ok ⟨cd ++ recs, commitW wn cd wd, .ok .inRow, b', some S.name,
        [i0, i1, i2, i3, i4, i5]⟩) := by
  obtain ⟨-, -, -, hsp, hres, -, -, hrows, hex⟩ := h
  obtain ⟨b', hrun⟩ := runLines_rows i0 i1 i2 i3 i4 i5 S.rows recs cd
    (commitW wn cd wd) b (some S.name) (fun r hr => (hrows r hr).2) hex
  refine ⟨b', ?_⟩
  show runLines _ (S.name :: sepLine :: S.header :: S.underline :: S.rows) = _
  rw [runLines_cons_ok _ _ _ _ (stepLine_start cd wd b wn ci S.name),
      runLines_cons_ok _ _ _ _ (stepLine_sep _ _ _ _ _),
      runLines_cons_ok _ _ _ _ (stepLine_header _ _ _ _ _ _ hsp hres),
      runLines_cons_ok _ _ _ _ (stepLine_headerBreak _ _ _ _ _ _),
      hrun]

/-! ### Splitting and joining lines -/

theorem splitLines_no_newline (l : List Char) (h : ('\n' : Char) ∉ l) :
    splitLines l = [l] := by
  induction l with
  | nil => rfl
  | cons c cs ih =>
    have hc : ¬(c = '\n') := fun hc => h (by simp [hc])
    have hcs : ('\n' : Char) ∉ cs := fun hm => h (List.mem_cons_of_mem c hm)
    simp [splitLines, hc, ih hcs]

theorem splitLines_append_newline (l t : List Char) (h : ('\n' : Char) ∉ l) :
    splitLines (l ++ '\n' :: t) = l :: splitLines t := by
  induction l with
  | nil => simp [splitLines]
  | cons c cs ih =>
    have hc : ¬(c = '\n') := fun hc => h (by simp [hc])
    have hcs : ('\n' : Char) ∉ cs := fun hm => h (List.mem_cons_of_mem c hm)
    show splitLines (c :: (cs ++ '\n' :: t)) = _
    simp only [splitLines, if_neg hc, ih hcs]

theorem splitLines_joinNL (ls : List (List Char)) (hne : ls ≠ [])
    (h : ∀ l ∈ ls, ('\n' : Char) ∉ l) :
    splitLines (joinNL ls) = ls := by
  induction ls with
  | nil => exact absurd rfl hne
  | cons l ls ih =>
    cases ls with
    | nil =>
      exact splitLines_no_newline l (h l (List.mem_cons_self l []))
    | cons l2 ls2 =>
      show splitLines (l ++ '\n' :: joinNL (l2 :: ls2)) = _
      rw [splitLines_append_newline l _ (h l (List.mem_cons_self l _)),
          ih (by simp) (fun x hx => h x (List.mem_cons_of_mem l hx))]

theorem map_trim_eq_self (ls : List (List Char))
    (h : ∀ l ∈ ls, trimChars l = l) : ls.map trimChars = ls := by
  induction ls with
  | nil => rfl
  | cons l ls ih =>
    simp only [List.map_cons, h l (List.mem_cons_self l ls),
      ih (fun x hx => h x (List.mem_cons_of_mem l hx))]

theorem sectionLines_lineOk (S : WSection) (i0 i1 i2 i3 i4 i5 : Nat)
    (recs : List OutdatedDep) (h : wfSection S i0 i1 i2 i3 i4 i5 recs) :
    ∀ l ∈ sectionLines S, lineOk l := by
  obtain ⟨hname, -, hheader, -, -, hunder, -, hrows, -⟩ := h
  intro l hl
  rcases List.mem_cons.mp hl with rfl | hl
  · exact hname
  rcases List.mem_cons.mp hl with rfl | hl
  · exact ⟨by decide, by decide⟩
  rcases List.mem_cons.mp hl with rfl | hl
  · exact hheader
  rcases List.mem_cons.mp hl with rfl | hl
  · exact hunder
  exact (hrows l hl).1

theorem sectionsLines_lineOk (ps : List (WSection × List OutdatedDep))
    (hwf : ∀ p ∈ ps, SecOk p.1 p.2) :
    ∀ l ∈ sectionsLines (ps.map Prod.fst), lineOk l := by
  induction ps with
  | nil => intro l hl; cases hl
  | cons p ps ih =>
    obtain ⟨i0, i1, i2, i3, i4, i5, hp⟩ := hwf p (List.mem_cons_self p ps)
    cases ps with
    | nil =>
      intro l hl
      exact sectionLines_lineOk p.1 i0 i1 i2 i3 i4 i5 p.2 hp l hl
    | cons q qs =>
      intro l hl
      have hl' : l ∈ sectionLines p.1 ++ [] :: sectionsLines ((q :: qs).map Prod.fst) := hl
      rcases List.mem_append.mp hl' with hl2 | hl2
      · exact sectionLines_lineOk p.1 i0 i1 i2 i3 i4 i5 p.2 hp l hl2
      rcases List.mem_cons.mp hl2 with rfl | hl3
      · exact ⟨rfl, by decide⟩
      exact ih (fun x hx => hwf x (List.mem_cons_of_mem p hx)) l hl3

theorem sectionsLines_ne_nil (ps : List (WSection × List OutdatedDep))
    (hne : ps ≠ []) : sectionsLines (ps.map Prod.fst) ≠ [] := by
  cases ps with
  | nil => exact absurd rfl hne
  | cons p ps =>
    cases ps with
    | nil => simp [sectionsLines, sectionLines]
    | cons q qs => simp [sectionsLines, sectionLines]

/-! ### Folding whole reports -/

theorem commitW_eq (wn : Option (List Char)) (cd : List OutdatedDep)
    (wd : List (List Char × List OutdatedDep)) :
    commitW wn cd wd = wd ++ commitList wn cd := by
  cases wn <;> simp [commitW, commitList]

/-- Running all sections of a non-empty report from a `Start` state:
the loop ends in `InRow` with the folded accumulator, committed entries and
pending name. -/
theorem fold_run (ps : List (WSection × List OutdatedDep)) :
    ps ≠ [] → (∀ p ∈ ps, SecOk p.1 p.2) →
    ∀ (cd : List OutdatedDep) (wd : List (List Char × List OutdatedDep))
      (b : OutdatedDepBuilder) (wn : Option (List Char)) (ci : List Nat),
    ∃ b' ci',
      runLines ⟨cd, wd, .ok .start, b, wn, ci⟩ (sectionsLines (ps.map Prod.fst)) =
        some (.ok ⟨fsD cd (ps.map fun p => (p.1.name, p.2)),
                   fsAcc wn cd wd (ps.map fun p => (p.1.name, p.2)),
                   .ok .inRow, b',
                   fsW wn (ps.map fun p => (p.1.name, p.2)), ci'⟩) := by
  induction ps with
  | nil => intro hne; exact absurd rfl hne
  | cons p ps ih =>
    intro _ hwf cd wd b wn ci
    obtain ⟨i0, i1, i2, i3, i4, i5, hp⟩ := hwf p (List.mem_cons_self p ps)
    cases ps with
    | nil =>
      obtain ⟨b', hrun⟩ := runSection p.1 i0 i1 i2 i3 i4 i5 p.2 hp cd wd b wn ci
      exact ⟨b', [i0, i1, i2, i3, i4, i5], hrun⟩
    | cons q qs =>
      obtain ⟨b1, hrunA⟩ := runSection p.1 i0 i1 i2 i3 i4 i5 p.2 hp cd wd b wn ci
      obtain ⟨b', ci', hrunB⟩ := ih (by simp)
        (fun x hx => hwf x (List.mem_cons_of_mem p hx))
        (cd ++ p.2) (commitW wn cd wd) b1 (some p.1.name)
        [i0, i1, i2, i3, i4, i5]
      refine ⟨b', ci', ?_⟩
      show runLines _ (sectionLines p.1 ++
        [] :: sectionsLines ((q :: qs).map Prod.fst)) = _
      rw [runLines_append_ok _ _ _ _ hrunA,
          runLines_cons_ok _ _ _ _ (stepLine_blank _ _ _ _ _), hrunB]
      rfl

/-- Committing the pending workspace after the fold yields the committed
entries plus one final entry; together they are exactly `accumEntries`. -/
theorem fs_final (qs : List (List Char × List OutdatedDep)) :
    ∀ (wn : Option (List Char)) (cd : List OutdatedDep)
      (wd : List (List Char × List OutdatedDep)), qs ≠ [] →
    ∃ n, fsW wn qs = some n ∧
      fsAcc wn cd wd qs ++ [(n, fsD cd qs)] =
        wd ++ commitList wn cd ++ accumEntries cd qs := by
  induction qs with
  | nil => intro wn cd wd hne; exact absurd rfl hne
  | cons q qs ih =>
    intro wn cd wd _
    obtain ⟨n, rs⟩ := q
    cases qs with
    | nil =>
      refine ⟨n, rfl, ?_⟩
      show commitW wn cd wd ++ [(n, cd ++ rs)] = _
      rw [commitW_eq]
      simp [accumEntries]
    | cons q2 qs2 =>
      obtain ⟨m, hw, hacc⟩ := ih (some n) (cd ++ rs) (commitW wn cd wd)
        (by simp)
      refine ⟨m, hw, ?_⟩
      show fsAcc (some n) (cd ++ rs) (commitW wn cd wd) (q2 :: qs2) ++
        [(m, fsD (cd ++ rs) (q2 :: qs2))] = _
      rw [hacc, commitW_eq]
      show wd ++ commitList wn cd ++ [(n, cd ++ rs)] ++
        accumEntries (cd ++ rs) (q2 :: qs2) = _
      simp [accumEntries]

/-- What `try_from` returns on a rendered non-empty report of well-formed
sections: `Ok`, with the accumulated (bleed-through) entries. -/
theorem tryFrom_sections (ps : List (WSection × List OutdatedDep))
    (hne : ps ≠ []) (hwf : ∀ p ∈ ps, SecOk p.1 p.2) :
    tryFrom ⟨joinNL (sectionsLines (ps.map Prod.fst))⟩ =
      some (.ok ⟨accumEntries [] (ps.map fun p => (p.1.name, p.2))⟩) := by
  have hlok := sectionsLines_lineOk ps hwf
  have hlines : (splitLines (String.mk
      (joinNL (sectionsLines (ps.map Prod.fst)))).data).map trimChars =
      sectionsLines (ps.map Prod.fst) := by
    rw [show (String.mk (joinNL (sectionsLines (ps.map Prod.fst)))).data =
      joinNL (sectionsLines (ps.map Prod.fst)) from rfl]
    rw [splitLines_joinNL _ (sectionsLines_ne_nil ps hne)
      (fun l hl => (hlok l hl).2)]
    exact map_trim_eq_self _ (fun l hl => (hlok l hl).1)
  rw [tryFrom_eq_runLines _ _ hlines]
  obtain ⟨b', ci', hrun⟩ := fold_run ps hne hwf [] []
    ⟨none, none, none, none, none, none⟩ none []
  show (match runLines ⟨[], [], .ok .start,
      ⟨none, none, none, none, none, none⟩, none, []⟩
      (sectionsLines (ps.map Prod.fst)) with
    | none => none
    | some (Except.error e) => some (Except.error e)
    | some (Except.ok s) =>
      match s.workspaceName with
      | none => none
      | some n =>
        some (Except.ok (OutdatedResult.mk
          (s.workspaceDeps ++ [(n, s.curDeps)])))) = _
  rw [hrun]
  have hqs : (ps.map fun p => (p.1.name, p.2)) ≠ [] := by
    cases ps with
    | nil => exact absurd rfl hne
    | cons p ps => simp
  obtain ⟨n, hw, hacc⟩ := fs_final (ps.map fun p => (p.1.name, p.2)) none [] [] hqs
  show (match fsW none (ps.map fun p : WSection × List OutdatedDep =>
      (p.1.name, p.2)) with
    | none => (none : Option (Except Err OutdatedResult))
    | some n => some (Except.ok (OutdatedResult.mk
        (fsAcc none [] [] (ps.map fun p : WSection × List OutdatedDep =>
          (p.1.name, p.2)) ++
         [(n, fsD [] (ps.map fun p : WSection × List OutdatedDep =>
          (p.1.name, p.2)))])))) = _
  rw [hw]
  rw [show (commitList none [] : List (List Char × List OutdatedDep)) = []
    from rfl] at hacc
  simp only [List.nil_append] at hacc
  show some (Except.ok (OutdatedResult.mk
      (fsAcc none [] [] (ps.map fun p : WSection × List OutdatedDep =>
        (p.1.name, p.2)) ++
       [(n, fsD [] (ps.map fun p : WSection × List OutdatedDep =>
        (p.1.name, p.2)))]))) = _
  rw [hacc]

theorem accumEntries_map_fst (qs : List (List Char × List OutdatedDep)) :
    ∀ cd, (accumEntries cd qs).map Prod.fst = qs.map Prod.fst := by
  induction qs with
  | nil => intro cd; rfl
  | cons q qs ih =>
    intro cd
    obtain ⟨n, rs⟩ := q
    simp only [accumEntries, List.map_cons, ih]

theorem accumEntries_length (qs : List (List Char × List OutdatedDep)) :
    ∀ cd, (accumEntries cd qs).length = qs.length := by
  induction qs with
  | nil => intro cd; rfl
  | cons q qs ih =>
    intro cd
    obtain ⟨n, rs⟩ := q
    simp only [accumEntries, List.length_cons, ih]

/-! ### Claim theorems: concrete (closed) facts -/

/-- C3: parsing the specification's sample input returns `Ok` with exactly
one workspace named `demo` holding exactly the records `foo` (project
version `1.0.0`, no compatible version, latest `Version "2.0.0"`, kind
`Normal`, no platform) and then `bar` (project version `0.1.0`, compatible
`Some "0.2.0"`, latest `Removed`, kind `Build`, no platform). -/
theorem c3_concrete_scenario :
    tryFrom sampleInput = some (.ok ⟨[("demo".data, [fooDep, barDep])]⟩) := by
  decide

/-- C1 (code bug, demonstration): on two well-formed sections the second
entry also contains the first section's row, because the `Start` arm resets
`column_indices` but never clears `cur_deps`.  The parse of `twoSecInput`
returns `alpha ↦ [foo]` and `beta ↦ [foo, bar]` instead of
`beta ↦ [bar]`. -/
theorem c1_row_bleed_through :
    tryFrom twoSecInput =
      some (.ok ⟨[("alpha".data, [fooDep]), ("beta".data, [fooDep, barDep])]⟩) := by
  decide

/-- C2 (code bug, demonstration): a workspace-name line followed by a
non-separator line produces a malformed-separator failure only when another
line follows; when the offending line is the **last** line of the input the
error is stored in `state` but never re-examined after the loop, so
`try_from` returns `Ok` with the pending workspace committed. -/
theorem c2_error_swallowed_on_last_line :
    tryFrom "demo\nxxx" = some (.ok ⟨[("demo".data, [])]⟩) ∧
    tryFrom "demo\nxxx\nrest" =
      some (.error (.expectedLineBreak "xxx".data)) := by
  constructor
  · decide
  · decide

/-- C9 (counterexample): on wholly empty input `try_from` does **not** fail
with a missing-workspace-name error; the empty single line is recorded as a
workspace name in the `Start` state, and the parse returns `Ok` with one
entry whose name is the empty string. -/
theorem c9_counterexample :
    tryFrom "" = some (.ok ⟨[(([] : List Char), [])]⟩) := by
  decide

/-- C9 (amended): for wholly empty input `try_from` neither panics nor
errors: the single empty line becomes the workspace name, and the result is
`Ok` with exactly one entry `("", [])`.  The final
`workspace_name.clone().unwrap()` cannot fire on this path. -/
theorem c9_amended_empty_input_ok :
    tryFrom "" ≠ none ∧
    (tryFrom "").any (fun r => r = .ok ⟨[(([] : List Char), [])]⟩) := by
  constructor
  · decide
  · decide

/-- C8 (counterexample): separating the two well-formed sections of
`twoSecInput` by two blank lines instead of one makes the parse fail: the
second blank line is recorded as a workspace name by the `Start` state (which
accepts *any* line, blank included), so the following `beta` line is not the
expected separator. -/
theorem c8_counterexample :
    tryFrom twoSecDoubleBlankInput =
      some (.error (.expectedLineBreak "beta".data)) := by
  decide

/-- C10 (counterexample): `try_from` does not always return a `Result`: on a
data row (`x`) shorter in bytes than the resolved column offsets, the slice
`line[start..next]` is out of range and the program panics (`none` in this
model) instead of yielding an `Err`. -/
theorem c10_counterexample :
    tryFrom shortRowInput = none := by
  decide

/-! ### Claim theorems: per-row and per-parse properties -/

/-- C5: for every successfully parsed data row, a trimmed Compat cell equal
to `---` yields `None` for `latest_compatible_version` (otherwise `Some` of
the trimmed cell); a trimmed Platform cell equal to `---` yields `None` for
`platform`; and a trimmed Latest cell equal to `Removed` yields the
`Removed` variant of `latest_version`, any other cell the literal
`Version` of the trimmed cell. -/
theorem c5_placeholder_sentinel_mapping (i0 i1 i2 i3 i4 i5 : Nat)
    (b b' : OutdatedDepBuilder) (line : List Char) (d : OutdatedDep)
    (v2 v3 v5 : List Char)
    (h : processRow [i0, i1, i2, i3, i4, i5] b line = some (.ok (b', d)))
    (h2 : (byteSlice line i2 i3).map trimChars = some v2)
    (h3 : (byteSlice line i3 i4).map trimChars = some v3)
    (h5 : (dropBytes line i5).map trimChars = some v5) :
    d.latest_compatible_version = (if v2 = "---".data then none else some v2) ∧
    (v5 = "---".data → d.platform = none) ∧
    d.latest_version =
      (if v3 = "Removed".data then LatestVersion.removed else .v v3) := by
  rw [processRow_closed] at h
  obtain ⟨w0, w1, w2, w3, w4, w5, k, c0, c1, c2, c3, c4, c5, ck, hd⟩ :=
    rowOutcome_ok_inv _ _ _ _ _ _ _ _ _ h
  rw [h2] at c2
  rw [h3] at c3
  rw [h5] at c5
  obtain rfl := Option.some.inj c2
  obtain rfl := Option.some.inj c3
  obtain rfl := Option.some.inj c5
  subst hd
  refine ⟨rfl, ?_, rfl⟩
  intro hv
  show (if v5 = "---".data then none else some line) = none
  exact if_pos hv

/-- C5 witness: row `bar` of the scenario exercises `Some` compat,
`Removed` latest and placeholder platform. -/
theorem c5_placeholder_sentinel_mapping_witness :
    barDep.latest_compatible_version =
      (if "0.2.0".data = "---".data then none else some "0.2.0".data) ∧
    ("---".data = "---".data → barDep.platform = none) ∧
    barDep.latest_version =
      (if "Removed".data = "Removed".data then LatestVersion.removed
       else .v "Removed".data) :=
  c5_placeholder_sentinel_mapping 0 7 16 24 33 41
    ⟨none, none, none, none, none, none⟩
    ⟨some "bar".data, some "0.1.0".data, some "0.2.0".data,
     some .removed, some .build, none⟩
    barRow.data barDep "0.2.0".data "Removed".data "---".data
    (by decide) (by decide) (by decide) (by decide)

/-- C7: for every successfully parsed data row whose trimmed Platform cell
is not the placeholder `---`, the record's `platform` field holds the
entire row line as the parser sees it (the trimmed original line), not the
trimmed last-column substring. -/
theorem c7_platform_whole_line (i0 i1 i2 i3 i4 i5 : Nat)
    (b b' : OutdatedDepBuilder) (line : List Char) (d : OutdatedDep)
    (v5 : List Char)
    (h : processRow [i0, i1, i2, i3, i4, i5] b line = some (.ok (b', d)))
    (h5 : (dropBytes line i5).map trimChars = some v5)
    (hne : v5 ≠ "---".data) :
    d.platform = some line := by
  rw [processRow_closed] at h
  obtain ⟨w0, w1, w2, w3, w4, w5, k, c0, c1, c2, c3, c4, c5, ck, hd⟩ :=
    rowOutcome_ok_inv _ _ _ _ _ _ _ _ _ h
  rw [h5] at c5
  obtain rfl := Option.some.inj c5
  subst hd
  show (if v5 = "---".data then none else some line) = some line
  exact if_neg hne

/-- C7 witness: the `cfg(unix)` platform cell of `pfRow` stores the whole
row line. -/
theorem c7_platform_whole_line_witness :
    (⟨"qux".data, "1.0.0".data, none, .v "2.0.0".data, .normal,
      some pfRow.data⟩ : OutdatedDep).platform = some pfRow.data :=
  c7_platform_whole_line 0 7 16 24 33 41
    ⟨none, none, none, none, none, none⟩
    ⟨some "qux".data, some "1.0.0".data, none, some (.v "2.0.0".data),
     some .normal, some pfRow.data⟩
    pfRow.data
    ⟨"qux".data, "1.0.0".data, none, .v "2.0.0".data, .normal, some pfRow.data⟩
    "cfg(unix)".data
    (by decide) (by decide) (by decide)

/-- C6: for every input containing a data row whose trimmed Kind cell is
recognized by none of `Normal`, `Development`, `Build`, the parse returns
the unknown-dependency-kind failure carrying the offending token and no
(partial) result: the row error is raised through `?` immediately,
regardless of what follows. -/
theorem c6_unknown_kind_rejection (input : String) (pre : List (List Char))
    (row : List Char) (rest : List (List Char)) (s : LoopSt)
    (i0 i1 i2 i3 i4 i5 : Nat) (v0 v1 v2 v3 v4 : List Char)
    (hsplit : (splitLines input.data).map trimChars = pre ++ row :: rest)
    (hpre : runLines initSt pre = some (.ok s))
    (hst : s.st = .ok .inRow)
    (hci : s.columnIndices = [i0, i1, i2, i3, i4, i5])
    (hrow : row ≠ [])
    (h0 : (byteSlice row i0 i1).map trimChars = some v0)
    (h1 : (byteSlice row i1 i2).map trimChars = some v1)
    (h2 : (byteSlice row i2 i3).map trimChars = some v2)
    (h3 : (byteSlice row i3 i4).map trimChars = some v3)
    (h4 : (byteSlice row i4 i5).map trimChars = some v4)
    (hkind : kindOf v4 = none) :
    tryFrom input = some (.error (.unknownDepKind v4)) := by
  have hstep : stepLine s row = some (.error (.unknownDepKind v4)) := by
    simp only [stepLine, hst, hci, if_neg hrow, processRow_closed, rowOutcome,
      h0, h1, h2, h3, h4, hkind]
  rw [tryFrom_eq_runLines input (pre ++ row :: rest) hsplit,
     runLines_append, hpre]
  simp only [runLines, hstep]

/-- C6 witness: the kind token `Weird` in `badKindInput` is rejected with
an unknown-dependency-kind failure. -/
theorem c6_unknown_kind_rejection_witness :
    tryFrom badKindInput = some (.error (.unknownDepKind "Weird".data)) :=
  c6_unknown_kind_rejection badKindInput
    ["demo".data, sepLine, hdrLine.data, dashLine.data]
    "foo    1.0.0    ---     2.0.0    Weird   ---".data [] afterHeaderSt
    0 7 16 24 33 41
    "foo".data "1.0.0".data "---".data "2.0.0".data "Weird".data
    (by decide) (by decide) (by decide) (by decide) (by decide)
    (by decide) (by decide) (by decide) (by decide) (by decide) (by decide)

/-- C10 (amended): `try_from` is not total.  Whenever the parse reaches a
data row on which the first column slice `line[start..next]` is out of
range or not on a character boundary, the program panics (`none`) instead
of returning an `Err`. -/
theorem c10_amended_slice_panic_aborts (input : String)
    (pre : List (List Char)) (row : List Char) (rest : List (List Char))
    (s : LoopSt) (i0 i1 i2 i3 i4 i5 : Nat)
    (hsplit : (splitLines input.data).map trimChars = pre ++ row :: rest)
    (hpre : runLines initSt pre = some (.ok s))
    (hst : s.st = .ok .inRow)
    (hci : s.columnIndices = [i0, i1, i2, i3, i4, i5])
    (hrow : row ≠ [])
    (hslice : byteSlice row i0 i1 = none) :
    tryFrom input = none := by
  have hstep : stepLine s row = none := by
    simp only [stepLine, hst, hci, if_neg hrow, processRow_closed, rowOutcome,
      hslice, Option.map_none']
  rw [tryFrom_eq_runLines input (pre ++ row :: rest) hsplit,
     runLines_append, hpre]
  simp only [runLines, hstep]

/-- C10 witness: the row `x` of `shortRowInput` is 1 byte long while the
second column offset is 5, so the slice panics and `try_from` aborts. -/
theorem c10_amended_slice_panic_aborts_witness :
    tryFrom shortRowInput = none :=
  c10_amended_slice_panic_aborts shortRowInput
    ["w".data, sepLine, "Name Project Compat Latest Kind Platform".data,
     "----".data]
    "x".data [] afterShortHeaderSt 0 5 13 20 27 32
    (by decide) (by decide) (by decide) (by decide) (by decide) (by decide)

/-- C4: for every non-empty list of well-formed sections separated by blank
lines, parse returns `Ok` and the result has exactly one entry per section,
in source order, each entry carrying the workspace name of its section. -/
theorem c4_section_count (ps : List (WSection × List OutdatedDep))
    (hne : ps ≠ []) (hwf : ∀ p ∈ ps, SecOk p.1 p.2) :
    ∃ entries, tryFrom ⟨joinNL (sectionsLines (ps.map Prod.fst))⟩ =
        some (.ok ⟨entries⟩) ∧
      entries.map Prod.fst = ps.map (fun p => p.1.name) ∧
      entries.length = ps.length := by
  refine ⟨accumEntries [] (ps.map fun p => (p.1.name, p.2)),
    tryFrom_sections ps hne hwf, ?_, ?_⟩
  · rw [accumEntries_map_fst]
    simp
  · rw [accumEntries_length]
    simp

/-- C4 witness: the two concrete sections `alpha` and `beta`. -/
theorem c4_section_count_witness :
    ∃ entries, tryFrom ⟨joinNL (sectionsLines
        (([(secAlpha, [fooDep]), (secBeta, [barDep])] :
          List (WSection × List OutdatedDep)).map Prod.fst))⟩ =
        some (.ok ⟨entries⟩) ∧
      entries.map Prod.fst =
        ([(secAlpha, [fooDep]), (secBeta, [barDep])] :
          List (WSection × List OutdatedDep)).map (fun p => p.1.name) ∧
      entries.length =
        ([(secAlpha, [fooDep]), (secBeta, [barDep])] :
          List (WSection × List OutdatedDep)).length :=
  c4_section_count [(secAlpha, [fooDep]), (secBeta, [barDep])]
    (by simp)
    (by
      intro p hp
      rcases List.mem_cons.mp hp with rfl | hp
      · exact ⟨0, 7, 16, 24, 33, 41, by unfold wfSection lineOk; decide⟩
      rcases List.mem_cons.mp hp with rfl | hp
      · exact ⟨0, 7, 16, 24, 33, 41, by unfold wfSection lineOk; decide⟩
      cases hp)

/-- C8 (amended): sections must be separated by exactly one blank line.
The `Start` state records *any* line, blank included, as a workspace name,
so two well-formed sections separated by two blank lines do not parse: the
second blank becomes a workspace name and the next section's name line is
rejected as a malformed separator. -/
theorem c8_amended_extra_blank_fails (A B : WSection)
    (iA0 iA1 iA2 iA3 iA4 iA5 iB0 iB1 iB2 iB3 iB4 iB5 : Nat)
    (recsA recsB : List OutdatedDep)
    (hA : wfSection A iA0 iA1 iA2 iA3 iA4 iA5 recsA)
    (hB : wfSection B iB0 iB1 iB2 iB3 iB4 iB5 recsB)
    (hBn : B.name ≠ sepLine) :
    tryFrom ⟨joinNL (doubleBlankLines A B)⟩ =
      some (.error (.expectedLineBreak B.name)) := by
  have hlok : ∀ l ∈ doubleBlankLines A B, lineOk l := by
    intro l hl
    rcases List.mem_append.mp hl with hl2 | hl2
    · exact sectionLines_lineOk A iA0 iA1 iA2 iA3 iA4 iA5 recsA hA l hl2
    rcases List.mem_cons.mp hl2 with rfl | hl3
    · exact ⟨rfl, by decide⟩
    rcases List.mem_cons.mp hl3 with rfl | hl4
    · exact ⟨rfl, by decide⟩
    exact sectionLines_lineOk B iB0 iB1 iB2 iB3 iB4 iB5 recsB hB l hl4
  have hlines : (splitLines (String.mk (joinNL (doubleBlankLines A B))).data).map
      trimChars = doubleBlankLines A B := by
    rw [show (String.mk (joinNL (doubleBlankLines A B))).data =
      joinNL (doubleBlankLines A B) from rfl]
    rw [splitLines_joinNL _ (by simp [doubleBlankLines, sectionLines])
      (fun l hl => (hlok l hl).2)]
    exact map_trim_eq_self _ (fun l hl => (hlok l hl).1)
  rw [tryFrom_eq_runLines _ _ hlines]
  obtain ⟨b1, hrunA⟩ := runSection A iA0 iA1 iA2 iA3 iA4 iA5 recsA hA
    [] [] ⟨none, none, none, none, none, none⟩ none []
  show (match runLines ⟨[], [], .ok .start,
      ⟨none, none, none, none, none, none⟩, none, []⟩
      (sectionLines A ++ [] :: [] :: sectionLines B) with
    | none => (none : Option (Except Err OutdatedResult))
    | some (Except.error e) => some (Except.error e)
    | some (Except.ok s) =>
      match s.workspaceName with
      | none => none
      | some n =>
        some (Except.ok (OutdatedResult.mk
          (s.workspaceDeps ++ [(n, s.curDeps)])))) = _
  rw [runLines_append_ok _ _ _ _ hrunA,
      runLines_cons_ok _ _ _ _ (stepLine_blank _ _ _ _ _),
      runLines_cons_ok _ _ _ _ (stepLine_start _ _ _ _ _ _)]
  show (match runLines _ (B.name :: sepLine :: B.header :: B.underline ::
      B.rows) with
    | none => (none : Option (Except Err OutdatedResult))
    | some (Except.error e) => some (Except.error e)
    | some (Except.ok s) =>
      match s.workspaceName with
      | none => none
      | some n =>
        some (Except.ok (OutdatedResult.mk
          (s.workspaceDeps ++ [(n, s.curDeps)])))) = _
  rw [runLines_cons_ok _ _ _ _ (stepLine_notsep _ _ _ _ _ _ hBn),
      runLines_cons_err _ _ _ _ (stepLine_err _ _ _ _ _ _ _)]

/-- C8 amended witness: the concrete sections `alpha` and `beta` separated
by two blank lines fail with a malformed-separator error at `beta`. -/
theorem c8_amended_extra_blank_fails_witness :
    tryFrom ⟨joinNL (doubleBlankLines secAlpha secBeta)⟩ =
      some (.error (.expectedLineBreak secBeta.name)) :=
  c8_amended_extra_blank_fails secAlpha secBeta 0 7 16 24 33 41 0 7 16 24 33 41
    [fooDep] [barDep]
    (by unfold wfSection lineOk; decide)
    (by unfold wfSection lineOk; decide)
    (by decide)

end ParseOutdated
